/-
Verification of the job aggregation pipeline of the Jobs4uAI repository.

The development shallowly embeds the TypeScript sources:
  * backend/src/services/jobAggregator.ts  (JobAggregatorService)
  * backend/src/services/jobApis/linkedinAPI.ts  (fetchLinkedInMultiple)
  * backend/src/models/Job.ts  (the Job document schema)

The MongoDB collection behind the mongoose `Job` model is embedded as a list
of (_id, document) pairs together with a fresh-id counter.  JavaScript
strings are Lean `String`s, `Date` values are integers (milliseconds since
the epoch), and possibly-`undefined` values are `Option`s.  Operations that
perform network I/O (the per-source fetchers) enter the model as explicit
inputs: each fetch result is an `Except` value, `.error` standing for a
thrown/rejected fetch.
-/
import Mathlib

/-! ## JavaScript string primitives -/

/-- `s.toUpperCase()` on ASCII text: uppercase every character. -/
def jsToUpper (s : String) : String := ⟨s.data.map Char.toUpper⟩

/-- `s.includes(sub)`: `sub` occurs contiguously inside `s`. -/
def strIncludes (s sub : String) : Bool := decide (sub.data <:+: s.data)

/-- `x || d` for a JavaScript string that may be `undefined`: the default is
taken both for a missing value and for the falsy empty string. -/
def jsOrStr (o : Option String) (d : String) : String :=
  match o with
  | none => d
  | some s => if s = "" then d else s

/-! ## The Job document (backend/src/models/Job.ts)

`JobDoc` carries the schema fields that all three document builders of
`JobAggregatorService` (`saveJob`, `saveHandshakeJob`, `saveLinkedInJob`)
write, so a mongoose update (a `$set` of exactly these fields) is a full
replacement of the document's content.  Fields only some builders write
(`experienceLevel`, `universityName`, `isCampusExclusive`, `companyLogo`)
and the engagement counters are not needed by any claim and are elided. -/

structure VisaSponsorship where
  h1b : Bool
  opt : Bool
  stemOpt : Bool
deriving Repr, DecidableEq

structure JobDoc where
  title : String
  company : String
  location : String
  description : String
  requirements : List String
  responsibilities : List String
  employmentType : String
  remote : Bool
  salaryMin : Option Int
  salaryMax : Option Int
  salaryCurrency : String
  visaSponsorship : VisaSponsorship
  source : String
  sourceJobId : String
  sourceUrl : String
  isUniversityJob : Bool
  postedDate : Int
  applicationUrl : String
  skillsRequired : List String
  industryTags : List String
  isActive : Bool
  isFeatured : Bool
  lastRefreshed : Int
deriving Repr, DecidableEq

/-- The five values of the schema's `employmentType` enum. -/
def empTypes : List String :=
  ["FULL_TIME", "PART_TIME", "CONTRACT", "INTERNSHIP", "TEMPORARY"]

/-! ## JobAggregatorService.mapEmploymentType (jobAggregator.ts lines 250-261) -/

/-- `mapEmploymentType(type?: string)`. `!type` is true for `undefined` and
for the empty string, both returning the `'FULL_TIME'` default. -/
def mapEmploymentType (type? : Option String) : String :=
  match type? with
  | none => "FULL_TIME"
  | some t =>
    if t = "" then "FULL_TIME"
    else
      let typeUpper := jsToUpper t
      if strIncludes typeUpper "FULL" then "FULL_TIME"
      else if strIncludes typeUpper "PART" then "PART_TIME"
      else if strIncludes typeUpper "CONTRACT" then "CONTRACT"
      else if strIncludes typeUpper "INTERN" then "INTERNSHIP"
      else if strIncludes typeUpper "TEMP" then "TEMPORARY"
      else "FULL_TIME"

example : mapEmploymentType (some "full-time") = "FULL_TIME" := by decide
example : mapEmploymentType (some "Internship") = "INTERNSHIP" := by decide
example : mapEmploymentType (some "seasonal temp") = "TEMPORARY" := by decide
example : mapEmploymentType none = "FULL_TIME" := by decide
example : mapEmploymentType (some "gig") = "FULL_TIME" := by decide

/-! ## The Job collection

A MongoDB collection of job documents: `(_id, document)` pairs plus the next
fresh `_id`.  `Job.findOne` returns the first match, `Job.findByIdAndUpdate`
replaces the content of the document with the given `_id` (the builders set
every `JobDoc` field, so the `$set` is a full content replacement), and
`Job.create` inserts under a fresh `_id`. -/

structure DB where
  docs : List (Nat × JobDoc)
  nextId : Nat
deriving Repr, DecidableEq

def emptyDB : DB := { docs := [], nextId := 0 }

/-- `Job.findOne({ source, sourceJobId })`. -/
def Job.findOne (src sid : String) (db : DB) : Option (Nat × JobDoc) :=
  db.docs.find? (fun p => p.2.source == src && p.2.sourceJobId == sid)

/-- `Job.findByIdAndUpdate(_id, jobDoc)`. -/
def Job.findByIdAndUpdate (i : Nat) (doc : JobDoc) (db : DB) : DB :=
  { db with docs := db.docs.map (fun p => if p.1 == i then (i, doc) else p) }

/-- `Job.create(jobDoc)`. -/
def Job.create (doc : JobDoc) (db : DB) : DB :=
  { docs := db.docs ++ [(db.nextId, doc)], nextId := db.nextId + 1 }

/-- The `findOne` / `findByIdAndUpdate`-or-`create` body shared verbatim by
`saveJob`, `saveHandshakeJob` and `saveLinkedInJob` (jobAggregator.ts lines
87-128, 140-184 and 196-241). -/
def upsert (src sid : String) (doc : JobDoc) (db : DB) : DB :=
  match Job.findOne src sid db with
  | some existing => Job.findByIdAndUpdate existing.1 doc db
  | none => Job.create doc db

/-! ## Fetched records

`JobApiResponse` (jobApis/types.ts) is the record shape the five generic
fetchers (usajobs, remoteok, arbeitnow, jooble, careerjet) hand to
`saveJob`; `HandshakeTJob` and `LinkedInTJob` are the `TransformedJob`
shapes produced by handshakeAPI.ts and linkedinAPI.ts.  Fields the save
functions guard with `||` or `?.` are `Option`s. -/

structure SalaryInfo where
  min : Option Int
  max : Option Int
  currency : Option String
deriving Repr, DecidableEq

structure JobApiResponse where
  id : String
  source : String
  title : Option String
  company : Option String
  location : Option String
  description : Option String
  employmentType : Option String
  remote : Option Bool
  salary : Option SalaryInfo
  visaSponsorship : Option VisaSponsorship
  url : Option String
  postedDate : Option Int
  skills : Option (List String)
deriving Repr, DecidableEq

structure HandshakeTJob where
  sourceJobId : String
  source : String
  title : Option String
  company : Option String
  location : Option String
  description : Option String
  salaryMin : Option Int
  salaryMax : Option Int
  salaryCurrency : Option String
  remote : Option Bool
  employmentType : Option String
  postedDate : Option Int
  url : Option String
  isCampusExclusive : Option Bool
  universityName : Option String
  experienceLevel : Option String
  skills : Option (List String)
deriving Repr, DecidableEq

structure LinkedInTJob where
  sourceJobId : String
  source : String
  title : Option String
  company : Option String
  companyLogo : Option String
  location : Option String
  description : Option String
  salaryMin : Option Int
  salaryMax : Option Int
  salaryCurrency : Option String
  remote : Option Bool
  employmentType : String
  postedDate : Option Int
  applicationUrl : Option String
  experienceLevel : Option String
  skills : Option (List String)
deriving Repr, DecidableEq

/-! ## The three save paths (jobAggregator.ts lines 84-245)

Each builder is the `jobDoc` object literal of the corresponding save
function; `now` is the clock value `new Date()` reads during the call. -/

/-- The `jobDoc` of `saveJob` (lines 92-120). -/
def mkJobDoc (jobData : JobApiResponse) (now : Int) : JobDoc :=
  { title := jsOrStr jobData.title "Untitled Position"
    company := jsOrStr jobData.company "Unknown Company"
    location := jsOrStr jobData.location "Not Specified"
    description := jsOrStr jobData.description ""
    requirements := []
    responsibilities := []
    employmentType := mapEmploymentType jobData.employmentType
    remote := jobData.remote.getD false
    salaryMin := jobData.salary.bind SalaryInfo.min
    salaryMax := jobData.salary.bind SalaryInfo.max
    salaryCurrency := jsOrStr (jobData.salary.bind SalaryInfo.currency) "USD"
    visaSponsorship := jobData.visaSponsorship.getD ⟨false, false, false⟩
    source := jsToUpper jobData.source
    sourceJobId := jobData.id
    sourceUrl := jsOrStr jobData.url ""
    isUniversityJob := false
    postedDate := jobData.postedDate.getD now
    applicationUrl := jsOrStr jobData.url ""
    skillsRequired := jobData.skills.getD []
    industryTags := []
    isActive := true
    isFeatured := false
    lastRefreshed := now }

/-- `saveJob` (lines 84-132): looks up and stores under the uppercased
source and the source-native id. -/
def saveJob (jobData : JobApiResponse) (now : Int) (db : DB) : DB :=
  upsert (jsToUpper jobData.source) jobData.id (mkJobDoc jobData now) db

/-- The `jobDoc` of `saveHandshakeJob` (lines 145-176). -/
def mkHandshakeJobDoc (jobData : HandshakeTJob) (now : Int) : JobDoc :=
  { title := jsOrStr jobData.title "Untitled Position"
    company := jsOrStr jobData.company "Unknown Company"
    location := jsOrStr jobData.location "Not Specified"
    description := jsOrStr jobData.description ""
    requirements := []
    responsibilities := []
    employmentType := mapEmploymentType jobData.employmentType
    remote := jobData.remote.getD false
    salaryMin := jobData.salaryMin
    salaryMax := jobData.salaryMax
    salaryCurrency := jsOrStr jobData.salaryCurrency "USD"
    visaSponsorship := ⟨false, false, false⟩
    source := jobData.source
    sourceJobId := jobData.sourceJobId
    sourceUrl := jsOrStr jobData.url ""
    isUniversityJob := true
    postedDate := jobData.postedDate.getD now
    applicationUrl := jsOrStr jobData.url ""
    skillsRequired := jobData.skills.getD []
    industryTags := []
    isActive := true
    isFeatured := false
    lastRefreshed := now }

/-- `saveHandshakeJob` (lines 137-188). -/
def saveHandshakeJob (jobData : HandshakeTJob) (now : Int) (db : DB) : DB :=
  upsert jobData.source jobData.sourceJobId (mkHandshakeJobDoc jobData now) db

/-- The `jobDoc` of `saveLinkedInJob` (lines 201-233). -/
def mkLinkedInJobDoc (jobData : LinkedInTJob) (now : Int) : JobDoc :=
  { title := jsOrStr jobData.title "Untitled Position"
    company := jsOrStr jobData.company "Unknown Company"
    location := jsOrStr jobData.location "Not Specified"
    description := jsOrStr jobData.description ""
    requirements := []
    responsibilities := []
    employmentType := mapEmploymentType (some jobData.employmentType)
    remote := jobData.remote.getD false
    salaryMin := jobData.salaryMin
    salaryMax := jobData.salaryMax
    salaryCurrency := jsOrStr jobData.salaryCurrency "USD"
    visaSponsorship := ⟨false, false, false⟩
    source := jobData.source
    sourceJobId := jobData.sourceJobId
    sourceUrl := jsOrStr jobData.applicationUrl ""
    isUniversityJob :=
      jobData.employmentType == "INTERNSHIP" || jobData.experienceLevel == some "ENTRY"
    postedDate := jobData.postedDate.getD now
    applicationUrl := jsOrStr jobData.applicationUrl ""
    skillsRequired := jobData.skills.getD []
    industryTags := []
    isActive := true
    isFeatured := false
    lastRefreshed := now }

/-- `saveLinkedInJob` (lines 193-245). -/
def saveLinkedInJob (jobData : LinkedInTJob) (now : Int) (db : DB) : DB :=
  upsert jobData.source jobData.sourceJobId (mkLinkedInJobDoc jobData now) db

/-! ## aggregateJobs (jobAggregator.ts lines 24-79)

The five generic fetches, the Handshake fetch and the LinkedIn fetch enter
as inputs; `.error` is a fetch whose promise rejected, which the
corresponding `catch` block turns into a log line and a skip.  Each saved
job increments `totalSaved`. -/

structure FetchResults where
  generic : List (Except String (List JobApiResponse))
  handshake : Except String (List HandshakeTJob)
  linkedin : Except String (List LinkedInTJob)

/-- `aggregateJobs`: sequential fan-out with try/catch per source, returning
`totalSaved` and the final database. -/
def aggregateJobs (fr : FetchResults) (now : Int) (db : DB) : Nat × DB :=
  let acc1 := fr.generic.foldl
    (fun acc r =>
      match r with
      | Except.error _ => acc
      | Except.ok jobs => jobs.foldl (fun a j => (a.1 + 1, saveJob j now a.2)) acc)
    (0, db)
  let acc2 :=
    match fr.handshake with
    | Except.error _ => acc1
    | Except.ok jobs => jobs.foldl (fun a j => (a.1 + 1, saveHandshakeJob j now a.2)) acc1
  match fr.linkedin with
  | Except.error _ => acc2
  | Except.ok jobs => jobs.foldl (fun a j => (a.1 + 1, saveLinkedInJob j now a.2)) acc2

/-- One store operation of the pipeline: which save path runs on which
fetched record. -/
inductive SaveOp where
  | generic (j : JobApiResponse)
  | handshake (j : HandshakeTJob)
  | linkedin (j : LinkedInTJob)

def applySave (now : Int) (db : DB) (op : SaveOp) : DB :=
  match op with
  | SaveOp.generic j => saveJob j now db
  | SaveOp.handshake j => saveHandshakeJob j now db
  | SaveOp.linkedin j => saveLinkedInJob j now db

def runSaves (now : Int) (ops : List SaveOp) (db : DB) : DB :=
  ops.foldl (applySave now) db

/-- The number of records a fetch result contributes. -/
def fetchedCount {α : Type} (r : Except String (List α)) : Nat :=
  match r with
  | Except.ok l => l.length
  | Except.error _ => 0

/-- The records a fetch result contributes (none for a failed fetch). -/
def fetchedJobs {α : Type} (r : Except String (List α)) : List α :=
  match r with
  | Except.ok l => l
  | Except.error _ => []

/-- The save operations one `aggregateJobs` run performs, in order. -/
def opsOf (fr : FetchResults) : List SaveOp :=
  ((fr.generic.map fetchedJobs).flatten.map SaveOp.generic)
    ++ (fetchedJobs fr.handshake).map SaveOp.handshake
    ++ (fetchedJobs fr.linkedin).map SaveOp.linkedin

/-- A sequence of aggregation runs, each with its own fetch results and
clock value. -/
def runAggregations (runs : List (FetchResults × Int)) (db : DB) : DB :=
  runs.foldl (fun d r => (aggregateJobs r.1 r.2 d).2) db

/-! ## cleanupOldJobs (jobAggregator.ts lines 337-348) -/

def msPerDay : Int := 86400000

/-- The `updateMany` filter: `postedDate` strictly before the cutoff and
`isActive: true`. -/
def isStale (cutoff : Int) (p : Nat × JobDoc) : Bool :=
  decide (p.2.postedDate < cutoff) && p.2.isActive

/-- `cleanupOldJobs`: deactivate active jobs posted more than 21 days ago
and return `modifiedCount`.  Every matched document is modified (the filter
requires `isActive: true` and the update writes `isActive: false`), so
`modifiedCount` is the match count. -/
def cleanupOldJobs (now : Int) (db : DB) : Nat × DB :=
  let cutoff := now - 21 * msPerDay
  let deactivate := fun (p : Nat × JobDoc) =>
    if isStale cutoff p then (p.1, { p.2 with isActive := false }) else p
  (db.docs.countP (isStale cutoff), { db with docs := db.docs.map deactivate })

/-! ## searchJobs (jobAggregator.ts lines 266-325)

The `$text` keyword search and the case-insensitive `$regex` location
filter run inside MongoDB; they enter the model as predicate parameters
`textMatch` and `regexMatchI`.  The skills filter targets a `skills` path
the Job schema does not define (documents store `skillsRequired`), and the
filter values are non-null strings, so `{ skills: { $in: [...] } }` matches
no stored document. -/

structure SearchFilters where
  keywords : Option String
  location : Option String
  remote : Option Bool
  h1b : Bool
  opt : Bool
  stemOpt : Bool
  employmentType : Option String
  skills : Option (List String)

/-- A truthiness-guarded string filter: a missing or empty value imposes no
constraint (`if (filters.x)`). -/
def optFilter (o : Option String) (test : String → Bool) : Bool :=
  match o with
  | none => true
  | some s => if s = "" then true else test s

/-- The `query` object built by `searchJobs`, as a predicate on documents. -/
def matchesQuery (textMatch : String → JobDoc → Bool)
    (regexMatchI : String → String → Bool) (f : SearchFilters) (d : JobDoc) : Bool :=
  d.isActive
    && optFilter f.keywords (fun k => textMatch k d)
    && optFilter f.location (fun loc => regexMatchI loc d.location)
    && (match f.remote with
        | none => true
        | some b => d.remote == b)
    && (if f.h1b then d.visaSponsorship.h1b else true)
    && (if f.opt then d.visaSponsorship.opt else true)
    && (if f.stemOpt then d.visaSponsorship.stemOpt else true)
    && optFilter f.employmentType (fun et => d.employmentType == et)
    && (match f.skills with
        | none => true
        | some l => if 0 < l.length then false else true)

/-- `.sort({ postedDate: -1 })`: newest first. -/
def byPostedDateDesc (a b : Nat × JobDoc) : Prop :=
  b.2.postedDate ≤ a.2.postedDate

instance : DecidableRel byPostedDateDesc :=
  fun a b => Int.decLe b.2.postedDate a.2.postedDate

instance : IsTotal (Nat × JobDoc) byPostedDateDesc :=
  ⟨fun a b => (le_total b.2.postedDate a.2.postedDate)⟩

instance : IsTrans (Nat × JobDoc) byPostedDateDesc :=
  ⟨fun _ _ _ h1 h2 => le_trans h2 h1⟩

structure Pagination where
  total : Nat
  page : Nat
  limit : Nat
  pages : Nat
deriving Repr, DecidableEq

structure SearchResult where
  jobs : List (Nat × JobDoc)
  pagination : Pagination
deriving Repr, DecidableEq

/-- `searchJobs(filters, page, limit)`: filter, sort newest-first, skip
`(page - 1) * limit`, take `limit`; `pages` is `Math.ceil(total / limit)`
(the callers pass `limit ≥ 1`; JavaScript yields `Infinity` at `limit = 0`,
outside this model). -/
def searchJobs (textMatch : String → JobDoc → Bool)
    (regexMatchI : String → String → Bool) (f : SearchFilters)
    (page limit : Nat) (db : DB) : SearchResult :=
  let matching := db.docs.filter (fun p => matchesQuery textMatch regexMatchI f p.2)
  let skip := (page - 1) * limit
  { jobs := ((matching.insertionSort byPostedDateDesc).drop skip).take limit
    pagination :=
      { total := matching.length
        page := page
        limit := limit
        pages := (matching.length + limit - 1) / limit } }

/-! ## fetchLinkedInMultiple (linkedinAPI.ts lines 143-219)

The four per-location requests enter as a list of fetch results, each the
`transformLinkedInJobs` output for its response; `.error` is a request whose
promise rejected, which the per-location `catch` skips.  The loop keeps the
first job seen for each `sourceJobId` (a `Set<string>` of seen ids). -/

/-- The body of the per-job `forEach`: skip a job whose `sourceJobId` was
already seen, otherwise push it and record its id. -/
def dedupStep (st : List LinkedInTJob × List String) (job : LinkedInTJob) :
    List LinkedInTJob × List String :=
  if st.2.contains job.sourceJobId then st
  else (st.1 ++ [job], st.2 ++ [job.sourceJobId])

/-- `fetchLinkedInMultiple`, from the per-location fetch results on: the
accumulating loop over location filters with per-location error isolation. -/
def fetchLinkedInMultiple (batches : List (Except String (List LinkedInTJob))) :
    List LinkedInTJob :=
  (batches.foldl
    (fun st r =>
      match r with
      | Except.ok batch => batch.foldl dedupStep st
      | Except.error _ => st)
    ([], [])).1

/-- All jobs the successful requests fetched, in fetch order. -/
def okFlat (batches : List (Except String (List LinkedInTJob))) : List LinkedInTJob :=
  (batches.map fetchedJobs).flatten

/-! ## Visa sponsorship detection, modelled from the spec -/

/-- Modelled from the spec: the repository's visa-detection service
("keyword/regex-based classification of a posting's text to flag likely
H-1B/OPT/STEM-OPT sponsorship availability") is not among the provided
source files — only the generic fetchers could invoke it.  This models the
classification the spec describes: a flag is raised when the posting's text
mentions the corresponding visa keyword. -/
def specDetectVisa (text : String) : VisaSponsorship :=
  { h1b := strIncludes (jsToUpper text) "H1B" || strIncludes (jsToUpper text) "H-1B"
    opt := strIncludes (jsToUpper text) "OPT"
    stemOpt := strIncludes (jsToUpper text) "STEM OPT" || strIncludes (jsToUpper text) "STEM-OPT" }

/-! ## Concrete sample values used by witnesses and counterexamples -/

/-- A LinkedIn posting whose text states H-1B availability. -/
def cexLinkedInJob : LinkedInTJob :=
  { sourceJobId := "li-42"
    source := "LINKEDIN"
    title := some "Software Engineer"
    company := some "Acme"
    companyLogo := none
    location := some "New York, NY"
    description := some "H1B sponsorship available for this role"
    salaryMin := none
    salaryMax := none
    salaryCurrency := none
    remote := some false
    employmentType := "FULL_TIME"
    postedDate := some 0
    applicationUrl := some "https://example.com/li-42"
    experienceLevel := some "MID"
    skills := none }

/-- A sample generic fetched record. -/
def sampleApiJob : JobApiResponse :=
  { id := "r-1"
    source := "remoteok"
    title := some "Backend Developer"
    company := some "Acme"
    location := some "Remote"
    description := some "Build APIs"
    employmentType := some "full-time"
    remote := some true
    salary := none
    visaSponsorship := none
    url := some "https://example.com/r-1"
    postedDate := some 1000
    skills := none }

def tmAny : String → JobDoc → Bool := fun _ _ => true

def rmAny : String → String → Bool := fun _ _ => true

def noFilters : SearchFilters :=
  { keywords := none
    location := none
    remote := none
    h1b := false
    opt := false
    stemOpt := false
    employmentType := none
    skills := none }

/-! ## Well-formedness of the stored collection

The schema declares `JobSchema.index({ source: 1, sourceJobId: 1 },
{ unique: true })` (Job.ts lines 206-207): distinct documents never share a
`(source, sourceJobId)` pair.  `DBWf` packages that key invariant with the
`_id` bookkeeping of the embedding (ids are distinct and below `nextId`). -/

def keysDistinct (db : DB) : Prop :=
  db.docs.Pairwise
    (fun a b => ¬(a.2.source = b.2.source ∧ a.2.sourceJobId = b.2.sourceJobId))

def DBWf (db : DB) : Prop :=
  (∀ p ∈ db.docs, p.1 < db.nextId) ∧ (db.docs.map Prod.fst).Nodup ∧ keysDistinct db

/-! ## A recursive presentation of the LinkedIn dedup loop

`dedupAux seen l` and `dedupSeen seen l` compute the job list and the seen
set that folding `dedupStep` over `l` produces; they exist to give the
fold's invariants an induction-friendly shape. -/

def dedupAux (seen : List String) : List LinkedInTJob → List LinkedInTJob
  | [] => []
  | j :: rest =>
    if seen.contains j.sourceJobId then dedupAux seen rest
    else j :: dedupAux (seen ++ [j.sourceJobId]) rest

def dedupSeen (seen : List String) : List LinkedInTJob → List String
  | [] => seen
  | j :: rest =>
    if seen.contains j.sourceJobId then dedupSeen seen rest
    else dedupSeen (seen ++ [j.sourceJobId]) rest

/-! ## Lemmas about mapEmploymentType -/

lemma mapEmploymentType_cases (o : Option String) :
    mapEmploymentType o = "FULL_TIME" ∨ mapEmploymentType o = "PART_TIME" ∨
    mapEmploymentType o = "CONTRACT" ∨ mapEmploymentType o = "INTERNSHIP" ∨
    mapEmploymentType o = "TEMPORARY" := by
  cases o with
  | none => left; rfl
  | some t =>
    simp only [mapEmploymentType]
    split_ifs <;> simp

/-- C5: `mapEmploymentType` always lands in the schema's five-value
`employmentType` enum; a missing input, and an input whose uppercasing
contains none of the substrings FULL, PART, CONTRACT, INTERN, TEMP, map to
FULL_TIME; and the substrings are recognized in that priority order. -/
theorem mapEmploymentType_normalizes (o : Option String) :
    mapEmploymentType o ∈ empTypes ∧
    (o = none → mapEmploymentType o = "FULL_TIME") ∧
    (∀ s, o = some s →
      strIncludes (jsToUpper s) "FULL" = false →
      strIncludes (jsToUpper s) "PART" = false →
      strIncludes (jsToUpper s) "CONTRACT" = false →
      strIncludes (jsToUpper s) "INTERN" = false →
      strIncludes (jsToUpper s) "TEMP" = false →
      mapEmploymentType o = "FULL_TIME") ∧
    (∀ s, o = some s → strIncludes (jsToUpper s) "FULL" = true →
      mapEmploymentType o = "FULL_TIME") ∧
    (∀ s, o = some s → strIncludes (jsToUpper s) "FULL" = false →
      strIncludes (jsToUpper s) "PART" = true →
      mapEmploymentType o = "PART_TIME") ∧
    (∀ s, o = some s → strIncludes (jsToUpper s) "FULL" = false →
      strIncludes (jsToUpper s) "PART" = false →
      strIncludes (jsToUpper s) "CONTRACT" = true →
      mapEmploymentType o = "CONTRACT") ∧
    (∀ s, o = some s → strIncludes (jsToUpper s) "FULL" = false →
      strIncludes (jsToUpper s) "PART" = false →
      strIncludes (jsToUpper s) "CONTRACT" = false →
      strIncludes (jsToUpper s) "INTERN" = true →
      mapEmploymentType o = "INTERNSHIP") ∧
    (∀ s, o = some s → strIncludes (jsToUpper s) "FULL" = false →
      strIncludes (jsToUpper s) "PART" = false →
      strIncludes (jsToUpper s) "CONTRACT" = false →
      strIncludes (jsToUpper s) "INTERN" = false →
      strIncludes (jsToUpper s) "TEMP" = true →
      mapEmploymentType o = "TEMPORARY") := by
  refine ⟨?_, ?_, ?_, ?_, ?_, ?_, ?_, ?_⟩
  · rcases mapEmploymentType_cases o with h | h | h | h | h <;> rw [h] <;> decide
  · intro h; rw [h]; rfl
  · intro s h h1 h2 h3 h4 h5; subst h
    by_cases hs : s = ""
    · simp [mapEmploymentType, hs]
    · simp [mapEmploymentType, hs, h1, h2, h3, h4, h5]
  · intro s h h1; subst h
    by_cases hs : s = ""
    · subst hs; exact absurd h1 (by decide)
    · simp [mapEmploymentType, hs, h1]
  · intro s h h1 h2; subst h
    by_cases hs : s = ""
    · subst hs; exact absurd h2 (by decide)
    · simp [mapEmploymentType, hs, h1, h2]
  · intro s h h1 h2 h3; subst h
    by_cases hs : s = ""
    · subst hs; exact absurd h3 (by decide)
    · simp [mapEmploymentType, hs, h1, h2, h3]
  · intro s h h1 h2 h3 h4; subst h
    by_cases hs : s = ""
    · subst hs; exact absurd h4 (by decide)
    · simp [mapEmploymentType, hs, h1, h2, h3, h4]
  · intro s h h1 h2 h3 h4 h5; subst h
    by_cases hs : s = ""
    · subst hs; exact absurd h5 (by decide)
    · simp [mapEmploymentType, hs, h1, h2, h3, h4, h5]

/-- C9: `mapEmploymentType` is idempotent — feeding any of its outputs back
in returns it unchanged, and each of the five enum values is a fixed
point. -/
theorem mapEmploymentType_idempotent :
    (∀ o : Option String,
        mapEmploymentType (some (mapEmploymentType o)) = mapEmploymentType o) ∧
    (∀ v ∈ empTypes, mapEmploymentType (some v) = v) := by
  constructor
  · intro o
    rcases mapEmploymentType_cases o with h | h | h | h | h <;> rw [h] <;> decide
  · decide

/-! ## Visa sponsorship flags (C2) -/

/-- C2 counterexample: a LinkedIn posting whose text plainly offers H-1B
sponsorship is stored with `h1b = false` — the stored flags are the
hardcoded all-false literal of `saveLinkedInJob` (jobAggregator.ts lines
214-218), not a classification of the posting's text. -/
theorem visaFlags_counterexample :
    (mkLinkedInJobDoc cexLinkedInJob 0).visaSponsorship ≠
      specDetectVisa (mkLinkedInJobDoc cexLinkedInJob 0).description ∧
    (specDetectVisa (mkLinkedInJobDoc cexLinkedInJob 0).description).h1b = true ∧
    (mkLinkedInJobDoc cexLinkedInJob 0).visaSponsorship.h1b = false :=
  ⟨by decide, by decide, by decide⟩

/-- C2 (amended): a generic-source posting stores whatever sponsorship flags
its fetcher supplied, defaulting to all-false when the record carries none;
Handshake and LinkedIn postings are always stored with all three flags
false, independent of the posting's text. -/
theorem visaFlags_stored (gj : JobApiResponse) (hj : HandshakeTJob)
    (lj : LinkedInTJob) (now : Int) :
    (mkJobDoc gj now).visaSponsorship = gj.visaSponsorship.getD ⟨false, false, false⟩ ∧
    (mkHandshakeJobDoc hj now).visaSponsorship = ⟨false, false, false⟩ ∧
    (mkLinkedInJobDoc lj now).visaSponsorship = ⟨false, false, false⟩ :=
  ⟨rfl, rfl, rfl⟩

/-! ## Lemmas about upsert -/

lemma upsert_mem {src sid : String} {doc : JobDoc} {db : DB} :
    ∀ p ∈ (upsert src sid doc db).docs, p ∈ db.docs ∨ p.2 = doc := by
  intro p hp
  unfold upsert at hp
  cases hfind : Job.findOne src sid db with
  | some e =>
    rw [hfind] at hp
    simp only [Job.findByIdAndUpdate, List.mem_map] at hp
    rcases hp with ⟨q, hq, hfq⟩
    by_cases h : q.1 == e.1
    · right
      rw [if_pos h] at hfq
      rw [← hfq]
    · left
      rw [if_neg h] at hfq
      rw [← hfq]; exact hq
  | none =>
    rw [hfind] at hp
    simp only [Job.create, List.mem_append, List.mem_singleton] at hp
    rcases hp with h | h
    · left; exact h
    · right; rw [h]

/-- C10: the stored `isUniversityJob` flag — a LinkedIn posting is flagged a
university job exactly when its record's `employmentType` is INTERNSHIP or
its `experienceLevel` is ENTRY; Handshake postings are always flagged true;
generic-source postings always false.  Every document a save leaves in the
collection is either untouched or carries the corresponding builder's
content. -/
theorem isUniversityJob_stored (lj : LinkedInTJob) (hj : HandshakeTJob)
    (gj : JobApiResponse) (now : Int) (db : DB) :
    ((mkLinkedInJobDoc lj now).isUniversityJob =
      (lj.employmentType == "INTERNSHIP" || lj.experienceLevel == some "ENTRY")) ∧
    (mkHandshakeJobDoc hj now).isUniversityJob = true ∧
    (mkJobDoc gj now).isUniversityJob = false ∧
    (∀ p ∈ (saveLinkedInJob lj now db).docs,
        p ∈ db.docs ∨ p.2 = mkLinkedInJobDoc lj now) ∧
    (∀ p ∈ (saveHandshakeJob hj now db).docs,
        p ∈ db.docs ∨ p.2 = mkHandshakeJobDoc hj now) ∧
    (∀ p ∈ (saveJob gj now db).docs, p ∈ db.docs ∨ p.2 = mkJobDoc gj now) :=
  ⟨rfl, rfl, rfl, upsert_mem, upsert_mem, upsert_mem⟩

/-! ## cleanupOldJobs (C4) -/

/-- C4: `cleanupOldJobs` deactivates exactly the active jobs whose
`postedDate` lies strictly more than 21 days before `now`, returns how many
it deactivated, deletes nothing, and leaves every other document — in
particular its `isActive` value — unchanged. -/
theorem cleanupOldJobs_expires (now : Int) (db : DB) :
    ((cleanupOldJobs now db).2).docs.length = db.docs.length ∧
    (cleanupOldJobs now db).1 =
      (db.docs.filter
        (fun p => decide (p.2.postedDate < now - 21 * msPerDay) && p.2.isActive)).length ∧
    (∀ p ∈ db.docs, p.2.postedDate < now - 21 * msPerDay → p.2.isActive = true →
        (p.1, { p.2 with isActive := false }) ∈ ((cleanupOldJobs now db).2).docs) ∧
    (∀ p ∈ db.docs, ¬(p.2.postedDate < now - 21 * msPerDay ∧ p.2.isActive = true) →
        p ∈ ((cleanupOldJobs now db).2).docs) ∧
    ((cleanupOldJobs now db).2).nextId = db.nextId := by
  refine ⟨?_, ?_, ?_, ?_, rfl⟩
  · simp [cleanupOldJobs]
  · simp only [cleanupOldJobs, List.countP_eq_length_filter]
    rfl
  · intro p hp hdate hact
    have hstale : isStale (now - 21 * msPerDay) p = true := by
      simp [isStale, hdate, hact]
    simp only [cleanupOldJobs, List.mem_map]
    exact ⟨p, hp, by simp [hstale]⟩
  · intro p hp hnot
    have hstale : isStale (now - 21 * msPerDay) p = false := by
      cases hA : p.2.isActive with
      | false => simp [isStale, hA]
      | true =>
        have h1 : ¬(p.2.postedDate < now - 21 * msPerDay) := fun hd => hnot ⟨hd, hA⟩
        simp [isStale, h1]
    simp only [cleanupOldJobs, List.mem_map]
    exact ⟨p, hp, by simp [hstale]⟩

/-! ## Lemmas about searchJobs -/

lemma mem_searchJobs {tm : String → JobDoc → Bool} {rm : String → String → Bool}
    {f : SearchFilters} {page limit : Nat} {db : DB} {p : Nat × JobDoc}
    (hp : p ∈ (searchJobs tm rm f page limit db).jobs) :
    p ∈ db.docs ∧ matchesQuery tm rm f p.2 = true := by
  simp only [searchJobs] at hp
  have h1 := List.mem_of_mem_take hp
  have h2 := List.mem_of_mem_drop h1
  have h3 := (List.perm_insertionSort byPostedDateDesc _).mem_iff.mp h2
  exact ⟨(List.mem_filter.mp h3).1, (List.mem_filter.mp h3).2⟩

lemma matchesQuery_isActive {tm : String → JobDoc → Bool}
    {rm : String → String → Bool} {f : SearchFilters} {d : JobDoc}
    (h : matchesQuery tm rm f d = true) : d.isActive = true := by
  simp only [matchesQuery, Bool.and_eq_true] at h
  exact h.1.1.1.1.1.1.1.1

/-- C6: every job a search returns has `isActive = true` (the query object
always carries `isActive: true`); in particular a search run after
`cleanupOldJobs` returns no posting the cleanup expired — every result on
the cleaned collection is active and no older than the 21-day cutoff. -/
theorem searchJobs_only_active (tm : String → JobDoc → Bool)
    (rm : String → String → Bool) (f : SearchFilters) (page limit : Nat)
    (db : DB) (now : Int) :
    (∀ p ∈ (searchJobs tm rm f page limit db).jobs, p.2.isActive = true) ∧
    (∀ p ∈ (searchJobs tm rm f page limit (cleanupOldJobs now db).2).jobs,
        p.2.isActive = true ∧ ¬(p.2.postedDate < now - 21 * msPerDay)) := by
  constructor
  · intro p hp
    exact matchesQuery_isActive (mem_searchJobs hp).2
  · intro p hp
    have hmem := (mem_searchJobs hp).1
    have hact : p.2.isActive = true := matchesQuery_isActive (mem_searchJobs hp).2
    refine ⟨hact, ?_⟩
    simp only [cleanupOldJobs, List.mem_map] at hmem
    rcases hmem with ⟨q, hq, hfq⟩
    by_cases hs : isStale (now - 21 * msPerDay) q = true
    · rw [if_pos hs] at hfq
      rw [← hfq] at hact
      simp at hact
    · rw [if_neg hs] at hfq
      rw [← hfq] at hact ⊢
      intro hdate
      exact hs (by simp [isStale, hdate, hact])

/-! ## Pagination arithmetic -/

lemma ceilDiv_mul_ge (t l : Nat) (hl : 1 ≤ l) : t ≤ ((t + l - 1) / l) * l := by
  have h1 := Nat.div_add_mod (t + l - 1) l
  have h2 : (t + l - 1) % l < l := Nat.mod_lt _ (by omega)
  rw [mul_comm]
  generalize hr : (t + l - 1) % l = r at h1 h2
  generalize hm : l * ((t + l - 1) / l) = m at h1 ⊢
  omega

lemma ceilDiv_le_of_le (t l k : Nat) (hl : 1 ≤ l) (h : t ≤ k * l) :
    (t + l - 1) / l ≤ k := by
  have hb : 0 < l := hl
  refine (Nat.div_le_iff_le_mul_add_pred hb).mpr ?_
  rw [mul_comm] at h
  generalize hm : l * k = m at h ⊢
  omega

/-- C8: with a positive page and limit, a search returns at most `limit`
jobs — the page taken after skipping `(page - 1) * limit` entries of the
matching documents sorted newest-first — reports as `total` the number of
matching documents, and reports as `pages` the ceiling of `total / limit`
(the least page count covering all matches). -/
theorem searchJobs_pagination (tm : String → JobDoc → Bool)
    (rm : String → String → Bool) (f : SearchFilters) (page limit : Nat)
    (db : DB) (hpage : 1 ≤ page) (hlimit : 1 ≤ limit) :
    (searchJobs tm rm f page limit db).jobs.length ≤ limit ∧
    (searchJobs tm rm f page limit db).jobs =
      (((db.docs.filter (fun p => matchesQuery tm rm f p.2)).insertionSort
          byPostedDateDesc).drop ((page - 1) * limit)).take limit ∧
    List.Sorted byPostedDateDesc (searchJobs tm rm f page limit db).jobs ∧
    (searchJobs tm rm f page limit db).pagination.total =
      (db.docs.filter (fun p => matchesQuery tm rm f p.2)).length ∧
    (searchJobs tm rm f page limit db).pagination.total ≤
      (searchJobs tm rm f page limit db).pagination.pages * limit ∧
    (∀ k : Nat, (searchJobs tm rm f page limit db).pagination.total ≤ k * limit →
        (searchJobs tm rm f page limit db).pagination.pages ≤ k) := by
  simp only [searchJobs]
  refine ⟨List.length_take_le _ _, trivial, ?_, trivial,
    ceilDiv_mul_ge _ limit hlimit, fun k hk => ceilDiv_le_of_le _ limit k hlimit hk⟩
  exact List.Pairwise.sublist
    ((List.take_sublist _ _).trans (List.drop_sublist _ _))
    (List.sorted_insertionSort byPostedDateDesc _)

/-- C8 witness: the pagination contract at a concrete search. -/
theorem searchJobs_pagination_witness :
    (searchJobs tmAny rmAny noFilters 1 20 emptyDB).jobs.length ≤ 20 ∧
    (searchJobs tmAny rmAny noFilters 1 20 emptyDB).jobs =
      (((emptyDB.docs.filter (fun p => matchesQuery tmAny rmAny noFilters p.2)).insertionSort
          byPostedDateDesc).drop ((1 - 1) * 20)).take 20 ∧
    List.Sorted byPostedDateDesc (searchJobs tmAny rmAny noFilters 1 20 emptyDB).jobs ∧
    (searchJobs tmAny rmAny noFilters 1 20 emptyDB).pagination.total =
      (emptyDB.docs.filter (fun p => matchesQuery tmAny rmAny noFilters p.2)).length ∧
    (searchJobs tmAny rmAny noFilters 1 20 emptyDB).pagination.total ≤
      (searchJobs tmAny rmAny noFilters 1 20 emptyDB).pagination.pages * 20 ∧
    (∀ k : Nat, (searchJobs tmAny rmAny noFilters 1 20 emptyDB).pagination.total ≤ k * 20 →
        (searchJobs tmAny rmAny noFilters 1 20 emptyDB).pagination.pages ≤ k) :=
  searchJobs_pagination tmAny rmAny noFilters 1 20 emptyDB (by decide) (by decide)

/-! ## Lemmas about aggregateJobs -/

lemma foldl_count_save {α : Type} (sv : α → Int → DB → DB) (mk : α → SaveOp)
    (hsv : ∀ (j : α) (now : Int) (db : DB), applySave now db (mk j) = sv j now db)
    (now : Int) (jobs : List α) :
    ∀ (n : Nat) (db : DB),
      jobs.foldl (fun a j => (a.1 + 1, sv j now a.2)) (n, db) =
        (n + jobs.length, runSaves now (jobs.map mk) db) := by
  induction jobs with
  | nil => intro n db; simp [runSaves]
  | cons j rest ih =>
    intro n db
    simp only [List.foldl_cons, List.map_cons, List.length_cons]
    rw [ih]
    simp only [runSaves, List.foldl_cons, hsv, Prod.mk.injEq]
    exact ⟨by omega, trivial⟩

lemma foldl_generic (rs : List (Except String (List JobApiResponse))) (now : Int) :
    ∀ (n : Nat) (db : DB),
      rs.foldl
        (fun acc r =>
          match r with
          | Except.error _ => acc
          | Except.ok jobs => jobs.foldl (fun a j => (a.1 + 1, saveJob j now a.2)) acc)
        (n, db) =
        (n + (rs.map fetchedCount).sum,
         runSaves now ((rs.map fetchedJobs).flatten.map SaveOp.generic) db) := by
  induction rs with
  | nil => intro n db; simp [runSaves]
  | cons r rest ih =>
    intro n db
    cases r with
    | error e =>
      simp only [List.foldl_cons]
      rw [ih]
      simp [fetchedCount, fetchedJobs]
    | ok jobs =>
      simp only [List.foldl_cons]
      rw [foldl_count_save saveJob SaveOp.generic (fun _ _ _ => rfl) now jobs n db, ih]
      simp [fetchedCount, fetchedJobs, runSaves, List.foldl_append, Nat.add_assoc]

lemma aggregateJobs_eq (fr : FetchResults) (now : Int) (db : DB) :
    aggregateJobs fr now db =
      ((fr.generic.map fetchedCount).sum + fetchedCount fr.handshake +
         fetchedCount fr.linkedin,
       runSaves now (opsOf fr) db) := by
  obtain ⟨gen, hs, li⟩ := fr
  simp only [aggregateJobs]
  rw [foldl_generic gen now 0 db]
  cases hs with
  | error e =>
    cases li with
    | error e2 =>
      dsimp only
      simp [fetchedCount, opsOf, fetchedJobs]
    | ok ljobs =>
      dsimp only
      rw [foldl_count_save saveLinkedInJob SaveOp.linkedin (fun _ _ _ => rfl) now ljobs]
      simp [fetchedCount, opsOf, fetchedJobs, runSaves, List.foldl_append, Nat.add_assoc]
  | ok hjobs =>
    dsimp only
    rw [foldl_count_save saveHandshakeJob SaveOp.handshake (fun _ _ _ => rfl) now hjobs]
    cases li with
    | error e2 =>
      dsimp only
      simp [fetchedCount, opsOf, fetchedJobs, runSaves, List.foldl_append, Nat.add_assoc]
    | ok ljobs =>
      dsimp only
      rw [foldl_count_save saveLinkedInJob SaveOp.linkedin (fun _ _ _ => rfl) now ljobs]
      simp [fetchedCount, opsOf, fetchedJobs, runSaves, List.foldl_append, Nat.add_assoc]

/-- C3: with any subset of sources failing, `aggregateJobs` still processes
every remaining source in order and returns (rather than throws) the number
of jobs saved from the sources that succeeded: failed fetches contribute
nothing, successful ones contribute every record they fetched, and the
final collection is the one obtained by saving exactly those records in
order. -/
theorem aggregateJobs_isolates_failures (fr : FetchResults) (now : Int) (db : DB) :
    (aggregateJobs fr now db).1 =
      (fr.generic.map fetchedCount).sum + fetchedCount fr.handshake +
        fetchedCount fr.linkedin ∧
    (aggregateJobs fr now db).2 = runSaves now (opsOf fr) db := by
  rw [aggregateJobs_eq]
  exact ⟨rfl, rfl⟩

/-! ## Preservation of the (source, sourceJobId) key invariant -/

lemma findOne_mem {src sid : String} {db : DB} {e : Nat × JobDoc}
    (h : Job.findOne src sid db = some e) :
    e ∈ db.docs ∧ e.2.source = src ∧ e.2.sourceJobId = sid := by
  unfold Job.findOne at h
  have hmem := List.mem_of_find?_eq_some h
  have hpred := List.find?_some h
  simp only [Bool.and_eq_true, beq_iff_eq] at hpred
  exact ⟨hmem, hpred.1, hpred.2⟩

lemma findOne_none {src sid : String} {db : DB}
    (h : Job.findOne src sid db = none) :
    ∀ p ∈ db.docs, ¬(p.2.source = src ∧ p.2.sourceJobId = sid) := by
  unfold Job.findOne at h
  intro p hp hcon
  have hx := List.find?_eq_none.mp h p hp
  simp only [Bool.and_eq_true, beq_iff_eq] at hx
  exact hx ⟨hcon.1, hcon.2⟩

lemma nodup_ids_inj {db : DB} (h : (db.docs.map Prod.fst).Nodup)
    {a b : Nat × JobDoc} (ha : a ∈ db.docs) (hb : b ∈ db.docs) (hab : a.1 = b.1) :
    a = b :=
  List.inj_on_of_nodup_map h ha hb hab

lemma findByIdAndUpdate_map_fst (i : Nat) (doc : JobDoc) (db : DB) :
    (Job.findByIdAndUpdate i doc db).docs.map Prod.fst = db.docs.map Prod.fst := by
  simp only [Job.findByIdAndUpdate, List.map_map]
  apply List.map_congr_left
  intro p hp
  by_cases h : p.1 == i
  · simp only [Function.comp_apply, if_pos h]
    exact (beq_iff_eq.mp h).symm
  · have h2 : p.1 ≠ i := by simpa using h
    simp [Function.comp_apply, h2]

lemma upsert_wf {src sid : String} {doc : JobDoc} {db : DB}
    (hsrc : doc.source = src) (hsid : doc.sourceJobId = sid)
    (hwf : DBWf db) : DBWf (upsert src sid doc db) := by
  obtain ⟨hfresh, hids, hkeys⟩ := hwf
  unfold upsert
  cases hfind : Job.findOne src sid db with
  | none =>
    have hnone := findOne_none hfind
    refine ⟨?_, ?_, ?_⟩
    · intro p hp
      simp only [Job.create, List.mem_append, List.mem_singleton] at hp
      show p.1 < db.nextId + 1
      rcases hp with h | h
      · have := hfresh p h; omega
      · subst h; omega
    · show ((db.docs ++ [(db.nextId, doc)]).map Prod.fst).Nodup
      rw [List.map_append, List.nodup_append]
      refine ⟨hids, by simp, ?_⟩
      intro a ha
      rcases List.mem_map.mp ha with ⟨p, hp, rfl⟩
      have := hfresh p hp
      simp only [List.map_cons, List.map_nil, List.mem_singleton]
      omega
    · show (db.docs ++ [(db.nextId, doc)]).Pairwise _
      rw [List.pairwise_append]
      refine ⟨hkeys, by simp, ?_⟩
      intro a ha b hb
      simp only [List.mem_singleton] at hb
      subst hb
      intro hcon
      exact hnone a ha ⟨hcon.1.trans hsrc, hcon.2.trans hsid⟩
  | some e =>
    obtain ⟨hmem, hesrc, hesid⟩ := findOne_mem hfind
    have hidp : db.docs.Pairwise (fun a b => a.1 ≠ b.1) := List.pairwise_map.mp hids
    have hboth := hidp.and hkeys
    refine ⟨?_, ?_, ?_⟩
    · intro p hp
      have hps : p.1 ∈ (Job.findByIdAndUpdate e.1 doc db).docs.map Prod.fst :=
        List.mem_map_of_mem Prod.fst hp
      rw [findByIdAndUpdate_map_fst] at hps
      rcases List.mem_map.mp hps with ⟨q, hq, hq1⟩
      have := hfresh q hq
      show p.1 < db.nextId
      omega
    · rw [findByIdAndUpdate_map_fst]
      exact hids
    · show ((Job.findByIdAndUpdate e.1 doc db).docs).Pairwise _
      simp only [Job.findByIdAndUpdate]
      rw [List.pairwise_map]
      refine hboth.imp_of_mem ?_
      intro a b ha hb hab
      obtain ⟨hne, hkey⟩ := hab
      by_cases ha1 : a.1 == e.1
      · have haeq : a = e := nodup_ids_inj hids ha hmem (beq_iff_eq.mp ha1)
        by_cases hb1 : b.1 == e.1
        · have hbeq : b = e := nodup_ids_inj hids hb hmem (beq_iff_eq.mp hb1)
          exact (hne (by rw [haeq, hbeq])).elim
        · rw [if_pos ha1, if_neg hb1]
          intro hcon
          exact hkey ⟨by rw [haeq, hesrc, ← hsrc]; exact hcon.1,
            by rw [haeq, hesid, ← hsid]; exact hcon.2⟩
      · by_cases hb1 : b.1 == e.1
        · have hbeq : b = e := nodup_ids_inj hids hb hmem (beq_iff_eq.mp hb1)
          rw [if_neg ha1, if_pos hb1]
          intro hcon
          exact hkey ⟨by rw [hbeq, hesrc, ← hsrc]; exact hcon.1,
            by rw [hbeq, hesid, ← hsid]; exact hcon.2⟩
        · rw [if_neg ha1, if_neg hb1]
          exact hkey

lemma saveJob_wf {j : JobApiResponse} {now : Int} {db : DB} (h : DBWf db) :
    DBWf (saveJob j now db) :=
  upsert_wf rfl rfl h

lemma saveHandshakeJob_wf {j : HandshakeTJob} {now : Int} {db : DB} (h : DBWf db) :
    DBWf (saveHandshakeJob j now db) :=
  upsert_wf rfl rfl h

lemma saveLinkedInJob_wf {j : LinkedInTJob} {now : Int} {db : DB} (h : DBWf db) :
    DBWf (saveLinkedInJob j now db) :=
  upsert_wf rfl rfl h

lemma applySave_wf {now : Int} {db : DB} (op : SaveOp) (h : DBWf db) :
    DBWf (applySave now db op) := by
  cases op with
  | generic j => exact saveJob_wf h
  | handshake j => exact saveHandshakeJob_wf h
  | linkedin j => exact saveLinkedInJob_wf h

lemma runSaves_wf (now : Int) (ops : List SaveOp) :
    ∀ {db : DB}, DBWf db → DBWf (runSaves now ops db) := by
  induction ops with
  | nil => intro db h; exact h
  | cons op rest ih =>
    intro db h
    simp only [runSaves, List.foldl_cons]
    exact ih (applySave_wf op h)

lemma runAggregations_wf (runs : List (FetchResults × Int)) :
    ∀ {db : DB}, DBWf db → DBWf (runAggregations runs db) := by
  induction runs with
  | nil => intro db h; exact h
  | cons r rest ih =>
    intro db h
    simp only [runAggregations, List.foldl_cons]
    have h2 : DBWf (aggregateJobs r.1 r.2 db).2 := by
      rw [aggregateJobs_eq]
      exact runSaves_wf r.2 (opsOf r.1) h
    exact ih h2

lemma emptyDB_wf : DBWf emptyDB := by
  refine ⟨?_, ?_, ?_⟩ <;> simp [emptyDB, keysDistinct]

/-- C1: on a well-formed collection, saving a fetched record whose
(source, sourceJobId) pair is already stored updates that document in place
(same `_id`, same document count, all other documents untouched), while a
record with a fresh pair is appended as a new document; consequently after
any sequence of aggregation runs no two stored jobs share a
(source, sourceJobId) pair. -/
theorem upsert_by_natural_key (j : JobApiResponse) (now : Int) (db : DB)
    (hwf : DBWf db) :
    (∀ e, Job.findOne (jsToUpper j.source) j.id db = some e →
        (saveJob j now db).docs.length = db.docs.length ∧
        (e.1, mkJobDoc j now) ∈ (saveJob j now db).docs ∧
        ∀ p ∈ db.docs, p.1 ≠ e.1 → p ∈ (saveJob j now db).docs) ∧
    (Job.findOne (jsToUpper j.source) j.id db = none →
        (saveJob j now db).docs = db.docs ++ [(db.nextId, mkJobDoc j now)]) ∧
    keysDistinct (saveJob j now db) ∧
    (∀ runs : List (FetchResults × Int), keysDistinct (runAggregations runs db)) := by
  refine ⟨?_, ?_, (saveJob_wf hwf).2.2, fun runs => (runAggregations_wf runs hwf).2.2⟩
  · intro e hfind
    have hsave : saveJob j now db = Job.findByIdAndUpdate e.1 (mkJobDoc j now) db := by
      unfold saveJob upsert
      rw [hfind]
    rw [hsave]
    refine ⟨by simp [Job.findByIdAndUpdate], ?_, ?_⟩
    · have hmem := (findOne_mem hfind).1
      simp only [Job.findByIdAndUpdate, List.mem_map]
      exact ⟨e, hmem, by simp⟩
    · intro p hp hne
      simp only [Job.findByIdAndUpdate, List.mem_map]
      exact ⟨p, hp, by simp [hne]⟩
  · intro hfind
    have hsave : saveJob j now db = Job.create (mkJobDoc j now) db := by
      unfold saveJob upsert
      rw [hfind]
    rw [hsave]
    rfl

/-- C1 witness: the upsert contract instantiated at a concrete record and
the empty (hence well-formed) collection. -/
theorem upsert_by_natural_key_witness :
    DBWf emptyDB ∧
    ((∀ e, Job.findOne (jsToUpper sampleApiJob.source) sampleApiJob.id emptyDB = some e →
        (saveJob sampleApiJob 0 emptyDB).docs.length = emptyDB.docs.length ∧
        (e.1, mkJobDoc sampleApiJob 0) ∈ (saveJob sampleApiJob 0 emptyDB).docs ∧
        ∀ p ∈ emptyDB.docs, p.1 ≠ e.1 → p ∈ (saveJob sampleApiJob 0 emptyDB).docs) ∧
    (Job.findOne (jsToUpper sampleApiJob.source) sampleApiJob.id emptyDB = none →
        (saveJob sampleApiJob 0 emptyDB).docs =
          emptyDB.docs ++ [(emptyDB.nextId, mkJobDoc sampleApiJob 0)]) ∧
    keysDistinct (saveJob sampleApiJob 0 emptyDB) ∧
    (∀ runs : List (FetchResults × Int), keysDistinct (runAggregations runs emptyDB))) :=
  ⟨emptyDB_wf, upsert_by_natural_key sampleApiJob 0 emptyDB emptyDB_wf⟩

/-! ## The LinkedIn dedup loop (C7) -/

lemma foldl_dedupStep (l : List LinkedInTJob) :
    ∀ (acc : List LinkedInTJob) (seen : List String),
      l.foldl dedupStep (acc, seen) = (acc ++ dedupAux seen l, dedupSeen seen l) := by
  induction l with
  | nil => intro acc seen; simp [dedupAux, dedupSeen]
  | cons j rest ih =>
    intro acc seen
    simp only [List.foldl_cons, dedupStep, dedupAux, dedupSeen]
    by_cases h : seen.contains j.sourceJobId
    · rw [if_pos h, if_pos h, if_pos h]
      exact ih acc seen
    · rw [if_neg h, if_neg h, if_neg h]
      rw [ih (acc ++ [j]) (seen ++ [j.sourceJobId])]
      simp
  
lemma dedupAux_append (l1 l2 : List LinkedInTJob) :
    ∀ seen, dedupAux seen (l1 ++ l2) =
      dedupAux seen l1 ++ dedupAux (dedupSeen seen l1) l2 := by
  induction l1 with
  | nil => intro seen; simp [dedupAux, dedupSeen]
  | cons j rest ih =>
    intro seen
    simp only [List.cons_append, dedupAux, dedupSeen]
    by_cases h : seen.contains j.sourceJobId
    · rw [if_pos h, if_pos h, if_pos h]
      exact ih seen
    · rw [if_neg h, if_neg h, if_neg h]
      simp only [List.append_eq]
      rw [ih (seen ++ [j.sourceJobId])]
      simp

lemma dedupSeen_append (l1 l2 : List LinkedInTJob) :
    ∀ seen, dedupSeen seen (l1 ++ l2) = dedupSeen (dedupSeen seen l1) l2 := by
  induction l1 with
  | nil => intro seen; simp [dedupSeen]
  | cons j rest ih =>
    intro seen
    simp only [List.cons_append, dedupSeen]
    by_cases h : seen.contains j.sourceJobId
    · rw [if_pos h, if_pos h]; exact ih seen
    · rw [if_neg h, if_neg h]; exact ih (seen ++ [j.sourceJobId])

lemma fetchLinkedInMultiple_eq (batches : List (Except String (List LinkedInTJob))) :
    fetchLinkedInMultiple batches = dedupAux [] (okFlat batches) := by
  suffices h : ∀ (acc : List LinkedInTJob) (seen : List String),
      batches.foldl
        (fun st r =>
          match r with
          | Except.ok batch => batch.foldl dedupStep st
          | Except.error _ => st) (acc, seen) =
        (acc ++ dedupAux seen (okFlat batches), dedupSeen seen (okFlat batches)) by
    unfold fetchLinkedInMultiple
    rw [h [] []]
    simp
  induction batches with
  | nil => intro acc seen; simp [okFlat, dedupAux, dedupSeen]
  | cons b rest ih =>
    intro acc seen
    cases b with
    | error e =>
      simp only [List.foldl_cons]
      rw [ih]
      simp [okFlat, fetchedJobs]
    | ok batch =>
      simp only [List.foldl_cons]
      rw [foldl_dedupStep batch acc seen, ih]
      simp [okFlat, fetchedJobs, dedupAux_append, dedupSeen_append, List.append_assoc]

lemma dedupAux_not_seen (l : List LinkedInTJob) :
    ∀ seen, ∀ j ∈ dedupAux seen l, j.sourceJobId ∉ seen := by
  induction l with
  | nil => intro seen j hj; simp [dedupAux] at hj
  | cons a rest ih =>
    intro seen j hj
    simp only [dedupAux] at hj
    by_cases h : seen.contains a.sourceJobId
    · rw [if_pos h] at hj
      exact ih seen j hj
    · rw [if_neg h] at hj
      rcases List.mem_cons.mp hj with rfl | hj2
      · simpa [List.elem_iff] using h
      · have h2 := ih (seen ++ [a.sourceJobId]) j hj2
        intro hmem
        exact h2 (List.mem_append.mpr (Or.inl hmem))

lemma dedupAux_pairwise (l : List LinkedInTJob) :
    ∀ seen, (dedupAux seen l).Pairwise (fun a b => a.sourceJobId ≠ b.sourceJobId) := by
  induction l with
  | nil => intro seen; simp [dedupAux]
  | cons a rest ih =>
    intro seen
    simp only [dedupAux]
    by_cases h : seen.contains a.sourceJobId
    · rw [if_pos h]; exact ih seen
    · rw [if_neg h]
      refine List.Pairwise.cons ?_ (ih (seen ++ [a.sourceJobId]))
      intro b hb hab
      have := dedupAux_not_seen rest (seen ++ [a.sourceJobId]) b hb
      exact this (List.mem_append.mpr (Or.inr (by simp [hab])))

lemma dedupAux_sublist (l : List LinkedInTJob) :
    ∀ seen, (dedupAux seen l).Sublist l := by
  induction l with
  | nil => intro seen; simp [dedupAux]
  | cons a rest ih =>
    intro seen
    simp only [dedupAux]
    by_cases h : seen.contains a.sourceJobId
    · rw [if_pos h]
      exact (ih seen).trans (List.sublist_cons_self a rest)
    · rw [if_neg h]
      exact (ih (seen ++ [a.sourceJobId])).cons₂ a

lemma dedupAux_find (l : List LinkedInTJob) :
    ∀ seen, ∀ j ∈ dedupAux seen l,
      l.find? (fun x => x.sourceJobId == j.sourceJobId) = some j := by
  induction l with
  | nil => intro seen j hj; simp [dedupAux] at hj
  | cons a rest ih =>
    intro seen j hj
    simp only [dedupAux] at hj
    by_cases h : seen.contains a.sourceJobId
    · rw [if_pos h] at hj
      have hnotin := dedupAux_not_seen rest seen j hj
      have hne : (a.sourceJobId == j.sourceJobId) = false := by
        simp only [beq_eq_false_iff_ne, ne_eq]
        intro heq
        exact hnotin (heq ▸ List.elem_iff.mp h)
      rw [List.find?_cons_of_neg _ (by simp [hne]), ih seen j hj]
    · rw [if_neg h] at hj
      rcases List.mem_cons.mp hj with rfl | hj2
      · rw [List.find?_cons_of_pos _ (by simp)]
      · have hnotin := dedupAux_not_seen rest (seen ++ [a.sourceJobId]) j hj2
        have hne : (a.sourceJobId == j.sourceJobId) = false := by
          simp only [beq_eq_false_iff_ne, ne_eq]
          intro heq
          exact hnotin (List.mem_append.mpr (Or.inr (by simp [heq])))
        rw [List.find?_cons_of_neg _ (by simp [hne]),
          ih (seen ++ [a.sourceJobId]) j hj2]

lemma dedupAux_covers (l : List LinkedInTJob) :
    ∀ seen, ∀ j ∈ l, j.sourceJobId ∉ seen →
      ∃ j2 ∈ dedupAux seen l, j2.sourceJobId = j.sourceJobId := by
  induction l with
  | nil => intro seen j hj; simp at hj
  | cons a rest ih =>
    intro seen j hj hns
    simp only [dedupAux]
    by_cases h : seen.contains a.sourceJobId
    · rw [if_pos h]
      rcases List.mem_cons.mp hj with rfl | hj2
      · exact absurd (List.elem_iff.mp h) hns
      · exact ih seen j hj2 hns
    · rw [if_neg h]
      rcases List.mem_cons.mp hj with rfl | hj2
      · exact ⟨j, List.mem_cons_self j _, rfl⟩
      · by_cases hsame : j.sourceJobId = a.sourceJobId
        · exact ⟨a, List.mem_cons_self a _, hsame.symm⟩
        · have hns2 : j.sourceJobId ∉ seen ++ [a.sourceJobId] := by
            intro hmem
            rcases List.mem_append.mp hmem with hm | hm
            · exact hns hm
            · simp at hm; exact hsame hm
          rcases ih (seen ++ [a.sourceJobId]) j hj2 hns2 with ⟨j2, hj2m, hj2e⟩
          exact ⟨j2, List.mem_cons_of_mem a hj2m, hj2e⟩

/-- C7: whatever the per-location batches fetched (failed requests
included), the LinkedIn fetch returns a list with no two jobs sharing a
`sourceJobId`: a subsequence of the fetched stream keeping, for each id,
exactly its first occurrence in fetch order, with every fetched id
represented. -/
theorem fetchLinkedInMultiple_dedups (batches : List (Except String (List LinkedInTJob))) :
    (fetchLinkedInMultiple batches).Pairwise
      (fun a b => a.sourceJobId ≠ b.sourceJobId) ∧
    (fetchLinkedInMultiple batches).Sublist (okFlat batches) ∧
    (∀ j ∈ fetchLinkedInMultiple batches,
        (okFlat batches).find? (fun x => x.sourceJobId == j.sourceJobId) = some j) ∧
    (∀ j ∈ okFlat batches, ∃ j2 ∈ fetchLinkedInMultiple batches,
        j2.sourceJobId = j.sourceJobId) := by
  rw [fetchLinkedInMultiple_eq]
  refine ⟨dedupAux_pairwise _ [], dedupAux_sublist _ [], dedupAux_find _ [], ?_⟩
  intro j hj
  exact dedupAux_covers (okFlat batches) [] j hj (by simp)
